import Mathlib

/-! Verification development for Public/Src/App/RunInSubst/RunInSubst.cpp.

Paths and command-line tokens are modelled as lists of wide characters.
Windows API outcomes (GetFileAttributes, CreateFile on the lock files,
CreateProcess, the subst.exe enumeration, the child's exit code) are supplied
by an explicit environment, and the control flow of the program is embedded as
total functions producing an event trace plus a result; a fuel parameter
bounds the otherwise unbounded retry loops, with fuel exhaustion reported as a
separate outcome so that no behaviour is silently cut off. -/

namespace RunInSubst

/-- RUN_IN_SUBST_TIMEOUT (RunInSubst.cpp line 18): the fixed wait between lock
retries, in milliseconds. -/
def RUN_IN_SUBST_TIMEOUT : Nat := 5000

/-- SUBST_FILE_NAME (line 28): the fixed sentinel lock filename. -/
def SUBST_FILE_NAME : List Char := ".SubstLock".data

/-- Lower-casing as performed by _totlower / tolower on the ASCII range
(lines 204-208 and 665-668). -/
def wToLower (c : Char) : Char :=
  if 'A' ≤ c ∧ c ≤ 'Z' then Char.ofNat (c.toNat + 32) else c

/-- Upper-casing as performed by _totupper on the ASCII range (line 201). -/
def wToUpper (c : Char) : Char :=
  if 'a' ≤ c ∧ c ≤ 'z' then Char.ofNat (c.toNat - 32) else c

/-- isalpha on the ASCII range, as used at line 194. -/
def isalphaW (c : Char) : Bool :=
  decide (('A' ≤ c ∧ c ≤ 'Z') ∨ ('a' ≤ c ∧ c ≤ 'z'))

/-- Lower-case a path and force a trailing backslash, as done for substSource
(lines 204-214) and for the current directory (lines 662-673). -/
def lowerTrailingSep (s : List Char) : List Char :=
  let low := s.map wToLower
  if low.getLast? = some '\\' then low else low ++ ['\\']

/-- wcscpy_s(dest, destSizeInWords, src): the copy succeeds only when the
destination can hold the characters of src plus the terminating null, that is
when wcslen(src) < destSizeInWords. Otherwise the CRT runtime-constraint check
fails, the invalid-parameter handler fires (by default terminating the
process) and the destination is not filled with src; that failure is modelled
as none. -/
def wcscpy_s (destSize : Nat) (src : List Char) : Option (List Char) :=
  if src.length < destSize then some src else none

/-- GetFileAttributes outcome: INVALID_FILE_ATTRIBUTES, a directory, or an
existing entry without FILE_ATTRIBUTE_DIRECTORY. -/
inductive FileAttr where
  | invalid
  | dir
  | file
deriving DecidableEq

/-- One parsed mapping entry of pSubstList / pOrderedSubstList
(SUBST_NODE, lines 37-61), as far as parsing is concerned. -/
structure ParseSlot where
  letter : Char
  src : List Char
deriving DecidableEq

/-- Is argv[i] a mapping token (lines 191-199): its first character is a
letter, its second character is the first equals sign of the token, and the
token has at least MIN_SUBST_LENGTH = 3 characters. -/
def isMappingTok : List Char → Bool
  | c :: '=' :: rest => isalphaW c && !rest.isEmpty
  | _ => false

/-- Result of ParseSubstSourcesAndTargets: exitError models "return true"
(the app exits with code 1); crashed models the wcscpy_s runtime-constraint
failure on the duplicate-letter update path (lines 230-233); done carries the
slot table and the argv index of the executable to run, if one was found. -/
inductive ParseOutcome where
  | exitError
  | crashed
  | done (table : List ParseSlot) (execIdx : Option Nat)
deriving DecidableEq

/-- The duplicate-letter update (lines 227-235): the replacement buffer is
allocated with substSource.length() + 1 wchars, but wcscpy_s is passed
substSource.length() as the destination size. -/
def updateDup (table : List ParseSlot) (c : Char) (src : List Char) :
    Option (List ParseSlot) :=
  match wcscpy_s src.length src with
  | none => none
  | some copied =>
    some (table.map fun p => if p.letter == c then ⟨c, copied⟩ else p)

/-- ParseSubstSourcesAndTargets (lines 181-269), with GetFileAttributes
answered by attr. The Nat argument is the argv index of the token being
examined (the walk starts at index 1). A non-mapping token stops the walk and
becomes the executable to run; an out-of-range drive letter or an
invalid/non-directory source exits the app; a duplicate letter goes through
updateDup before any attribute check. -/
def parseArgs (attr : List Char → FileAttr) :
    List (List Char) → List ParseSlot → Nat → ParseOutcome
  | [], table, _ => .done table none
  | a :: rest, table, i =>
    if isMappingTok a then
      let letter := wToUpper (a.headD ' ')
      let src := lowerTrailingSep (a.drop 2)
      if 65 ≤ letter.toNat ∧ letter.toNat ≤ 90 then
        if table.any (fun p => p.letter == letter) then
          match updateDup table letter src with
          | none => .crashed
          | some t2 => parseArgs attr rest t2 (i + 1)
        else
          match attr src with
          | .invalid => .exitError
          | .file => .exitError
          | .dir => parseArgs attr rest (table ++ [⟨letter, src⟩]) (i + 1)
      else .exitError
    else .done table (some i)

/-- Outcome of the CreateProcess / GetExitCodeProcess sequence inside
MapUnmapSubstExecute (lines 490-532). -/
inductive SpawnResult where
  | createFail
  | exitCodeUnavailable
  | exited (code : Nat)
deriving DecidableEq

/-- MapUnmapSubstExecute (lines 490-532): returns 1 when the subst subprocess
cannot be created (line 507), when its exit code cannot be obtained
(line 519), or when that exit code is non-zero (line 528); returns 0
otherwise. -/
def MapUnmapSubstExecute : SpawnResult → Int
  | .createFail => 1
  | .exitCodeUnavailable => 1
  | .exited c => if c ≠ 0 then 1 else 0

/-- MapDrive (lines 552-566): builds the subst command, stores the result of
MapUnmapSubstExecute into ret, and then returns the literal 0 (line 565). -/
def MapDrive (r : SpawnResult) : Int :=
  let _ret := MapUnmapSubstExecute r
  0

/-- UnmapDrive (lines 538-550) returns the result of MapUnmapSubstExecute for
the removal command. -/
def UnmapDrive (r : SpawnResult) : Int :=
  MapUnmapSubstExecute r

/-- The setup stages of GetMappedPaths (lines 285-475) that can fail before
any output is parsed, plus the successful read path. -/
inductive EnumStage where
  | createPipeFail
  | setHandleInfoFail
  | createProcessFail
  | closeWriteFail
  | readOk
deriving DecidableEq

/-- Return value of GetMappedPaths: each setup failure returns 1 at once
(lines 304, 311, 349, 371) with no retry inside the function; the read loop
path returns 0 (line 474). -/
def getMappedPathsRet : EnumStage → Int
  | .readOk => 0
  | _ => 1

/-- The C++ expression at line 868 adds the integer codes of three wide
character literals before appending, producing the single character whose
code is the sum. -/
def wcharAdd (a b c : Char) : Char := Char.ofNat (a.toNat + b.toNat + c.toNat)

/-- The path of the second lock file as built at lines 866-869: the drive
letter, then the one character produced by wcharAdd ':' '\\' '\0'
(code 58 + 92 + 0 = 150), then SUBST_FILE_NAME. -/
def driveLockPath (c : Char) : List Char :=
  c :: wcharAdd ':' '\\' (Char.ofNat 0) :: SUBST_FILE_NAME

/-- Modelled from the spec: the sentinel file the spec locates at the drive
root, the letter followed by ":\" followed by the fixed sentinel filename. -/
def driveRootLockPathSpec (c : Char) : List Char :=
  c :: ':' :: '\\' :: SUBST_FILE_NAME

/-- LogToFile (lines 142-165) writes to the lock file only when the handle is
valid; with INVALID_HANDLE_VALUE it writes nothing. -/
def logToFileWrites (handle : Option Nat) : Bool := handle.isSome

/-- CreateFile outcome on a lock file, classified as at lines 812-831: a valid
handle, a failure with GetLastError = ERROR_SHARING_VIOLATION, or a failure
with any other error code. -/
inductive OpenResult where
  | ok (h : Nat)
  | sharing
  | other (err : Nat)
deriving DecidableEq

/-- A SUBST_NODE (lines 37-61) as acted on by SubstDrivesAndExecute:
szDriveLetter, szSourceDirectory, szMappedPath (none until the enumeration
reports a target for this letter), hLockFile (none models
INVALID_HANDLE_VALUE). -/
structure Slot where
  letter : Char
  src : List Char
  mapped : Option (List Char)
  handle : Option Nat
deriving DecidableEq

/-- Trace events of an embedded run of SubstDrivesAndExecute. -/
inductive Event where
  | lockSource (c : Char)
  | sleep (ms : Nat)
  | map (c : Char) (src : List Char)
  | enum (ok : Bool)
  | openDriveLock (c : Char) (path : List Char) (ok : Bool)
  | unmap (c : Char)
  | closeDriveLock (c : Char)
  | assertHit
  | execChild (code : Int)
  | invalidHandleAtCleanup (c : Char)
  | closeLock (c : Char)
deriving DecidableEq

/-- External-world answers for one run. openSource answers the k-th CreateFile
on a source-directory lock file, openDrive the k-th CreateFile on a
drive lock file, enumerate the k-th run of GetMappedPaths (none models a
setup failure, some a parsed snapshot mapping each letter to the target
currently reported for it), rootAttr answers GetFileAttributes on "<L>:\\",
and childExit is the value ExecuteProcess returns. -/
structure Env where
  srcAttr : List Char → FileAttr
  openSource : Nat → OpenResult
  enumerate : Nat → Option (Char → Option (List Char))
  openDrive : Nat → OpenResult
  rootAttr : Char → FileAttr
  childExit : Int

/-- Apply one enumeration snapshot to a slot (lines 442-451): a letter present
in the subst output gets its szMappedPath replaced; a letter absent from the
output keeps its old value. -/
def updMapped (snap : Char → Option (List Char)) (s : Slot) : Slot :=
  match snap s.letter with
  | some p => { s with mapped := some p }
  | none => s

/-- Apply the outcome of one GetMappedPaths call to a slot: a failed
enumeration updates nothing (the early returns at lines 304-371 fire before
any slot is touched), a successful one applies the snapshot. -/
def applyEnum (r : Option (Char → Option (List Char))) (s : Slot) : Slot :=
  match r with
  | none => s
  | some snap => updMapped snap s

/-- Outcome of the lock-acquisition retry loop. -/
inductive AcqOut where
  | acquired (h : Nat) (k : Nat)
  | fatal
  | fuelOut
deriving DecidableEq

/-- The source-lock retry loop (lines 809-836): on success the handle is kept;
on ERROR_SHARING_VIOLATION the code warns, sleeps RUN_IN_SUBST_TIMEOUT and
retries; on any other error it returns 1 from the whole function. -/
def acquireSourceLock (env : Env) : Nat → Nat → List Event × AcqOut
  | _, 0 => ([], .fuelOut)
  | k, fuel + 1 =>
    match env.openSource k with
    | .ok h => ([], .acquired h (k + 1))
    | .sharing =>
      (Event.sleep RUN_IN_SUBST_TIMEOUT :: (acquireSourceLock env (k + 1) fuel).1,
       (acquireSourceLock env (k + 1) fuel).2)
    | .other _ => ([], .fatal)

/-- Outcome of the source-lock phase. -/
inductive P1Out where
  | ok (slots : List Slot) (k : Nat)
  | fatal
  | fuelOut
deriving DecidableEq

/-- The source-lock phase of SubstDrivesAndExecute (lines 768-841): walk the
ordered slot list; for each slot validate the source directory (an invalid or
non-directory source returns 1 for the whole run, lines 786-803) and then
acquire the lock on sourceDirectory + SUBST_FILE_NAME. On success the slot's
handle is recorded and the walk continues with the next slot. -/
def phase1 (env : Env) (fuel : Nat) : Nat → List Slot → List Event × P1Out
  | k, [] => ([], .ok [] k)
  | k, s :: rest =>
    match env.srcAttr s.src with
    | .invalid => ([], .fatal)
    | .file => ([], .fatal)
    | .dir =>
      match acquireSourceLock env k fuel with
      | (tr, .acquired h k2) =>
        (tr ++ Event.lockSource s.letter :: (phase1 env fuel k2 rest).1,
         match (phase1 env fuel k2 rest).2 with
         | .ok locked k3 => .ok (⟨s.letter, s.src, s.mapped, some h⟩ :: locked) k3
         | .fatal => .fatal
         | .fuelOut => .fuelOut)
      | (tr, .fatal) => (tr, .fatal)
      | (tr, .fuelOut) => (tr, .fuelOut)

/-- One mismatch-repair decision. -/
inductive MStep where
  | retry (evs : List Event)
  | fatalStop (evs : List Event)
deriving DecidableEq

/-- The mismatch branch of the mapping loop (lines 865-926), for the slot s2
as updated by the latest enumeration. CreateFile is attempted on
driveLockPath s2.letter. Sharing violation: warn, sleep, continue. Other
error: GetFileAttributes("<L>:\\") — if invalid or not a directory, warn,
force UnmapDrive and continue; if a directory, return 1. Open success: if
szMappedPath is non-null and differs from szSourceDirectory, UnmapDrive,
CloseHandle the just-opened handle and continue; otherwise control falls
through to assert(false && "We should never be here!!!") at line 926 and, with
assertions disabled, the for loop continues with the same slot. -/
def mismatchStep (env : Env) (dk : Nat) (s2 : Slot) : MStep :=
  match env.openDrive dk with
  | .sharing =>
    .retry [Event.openDriveLock s2.letter (driveLockPath s2.letter) false,
            Event.sleep RUN_IN_SUBST_TIMEOUT]
  | .other _ =>
    match env.rootAttr s2.letter with
    | .invalid =>
      .retry [Event.openDriveLock s2.letter (driveLockPath s2.letter) false,
              Event.unmap s2.letter]
    | .file =>
      .retry [Event.openDriveLock s2.letter (driveLockPath s2.letter) false,
              Event.unmap s2.letter]
    | .dir =>
      .fatalStop [Event.openDriveLock s2.letter (driveLockPath s2.letter) false]
  | .ok _ =>
    match s2.mapped with
    | some m =>
      if m = s2.src then
        .retry [Event.openDriveLock s2.letter (driveLockPath s2.letter) true,
                Event.assertHit]
      else
        .retry [Event.openDriveLock s2.letter (driveLockPath s2.letter) true,
                Event.unmap s2.letter, Event.closeDriveLock s2.letter]
    | none =>
      .retry [Event.openDriveLock s2.letter (driveLockPath s2.letter) true,
              Event.assertHit]

/-- Outcome of the mapping/verification phase. -/
inductive P2Out where
  | ok (slots : List Slot)
  | fatal
  | fuelOut
deriving DecidableEq

/-- The mapping/verification loop of SubstDrivesAndExecute (lines 844-927).
Each iteration calls MapDrive on the current slot (its return value is 0 by
construction) and then GetMappedPaths on the whole table, whose return value
is discarded at line 855; a successful enumeration updates every slot's
szMappedPath. If the current slot's szMappedPath now equals its
szSourceDirectory the loop advances to the next slot, otherwise the
mismatch-repair branch runs and, unless it returns 1, the loop re-runs on the
same slot. -/
def phase2 (env : Env) : Nat → Nat → Nat → List Slot → List Slot → List Event × P2Out
  | _, _, _, done, [] => ([], .ok done)
  | 0, _, _, _, _ :: _ => ([], .fuelOut)
  | fuel + 1, ek, dk, done, s :: rest =>
    let r := env.enumerate ek
    let s2 := applyEnum r s
    let done2 := done.map (applyEnum r)
    let rest2 := rest.map (applyEnum r)
    if s2.mapped = some s2.src then
      (Event.map s.letter s.src :: Event.enum r.isSome ::
         (phase2 env fuel (ek + 1) dk (done2 ++ [s2]) rest2).1,
       (phase2 env fuel (ek + 1) dk (done2 ++ [s2]) rest2).2)
    else
      match mismatchStep env dk s2 with
      | .retry evs =>
        (Event.map s.letter s.src :: Event.enum r.isSome ::
           (evs ++ (phase2 env fuel (ek + 1) (dk + 1) done2 (s2 :: rest2)).1),
         (phase2 env fuel (ek + 1) (dk + 1) done2 (s2 :: rest2)).2)
      | .fatalStop evs =>
        (Event.map s.letter s.src :: Event.enum r.isSome :: evs, .fatal)

/-- The cleanup loop (lines 933-954): for each slot, log (a write happens only
when the handle is valid), UnmapDrive, then assert that the handle is valid;
an invalid handle logs (a no-op, the handle is invalid) and returns 1 at once,
a valid one is closed and the walk continues. When the walk completes, the
exit code computed from the child is returned. -/
def cleanup : List Slot → Int → List Event × Int
  | [], code => ([], code)
  | s :: rest, code =>
    match s.handle with
    | none => ([Event.unmap s.letter, Event.invalidHandleAtCleanup s.letter], 1)
    | some _ =>
      (Event.unmap s.letter :: Event.closeLock s.letter :: (cleanup rest code).1,
       (cleanup rest code).2)

/-- SubstDrivesAndExecute (lines 756-957): source-lock phase, then
mapping/verification phase, then ExecuteProcess (its return value supplied by
the environment), then cleanup. A fatal error in either phase returns 1 with
no unmapping and no handle closing (the code comments at lines 783, 792, 801,
829 and 913 defer that to OS process teardown). The result none models fuel
exhaustion of the unbounded retry loops. -/
def substDrivesAndExecute (env : Env) (fuel : Nat) (slots : List Slot) :
    List Event × Option Int :=
  match phase1 env fuel 0 slots with
  | (tr1, .fatal) => (tr1, some 1)
  | (tr1, .fuelOut) => (tr1, none)
  | (tr1, .ok locked _) =>
    match phase2 env fuel 0 0 [] locked with
    | (tr2, .fatal) => (tr1 ++ tr2, some 1)
    | (tr2, .fuelOut) => (tr1 ++ tr2, none)
    | (tr2, .ok finalSlots) =>
      (tr1 ++ tr2 ++ Event.execChild env.childExit ::
         (cleanup finalSlots env.childExit).1,
       some (cleanup finalSlots env.childExit).2)

/-- The 26 drive letters, in the index order of pOrderedSubstList. -/
def driveLetters : List Char := "ABCDEFGHIJKLMNOPQRSTUVWXYZ".data

/-- The walk over pOrderedSubstList for i = 0..25 skipping null entries
(lines 768-775, 844-851, 933-939): the slot stored at index i carries drive
letter chr(65+i), as established by ParseSubstSourcesAndTargets (lines 201,
216-228, 265). A letter-indexed table therefore yields the present slots in
ascending letter order. -/
def tableToSlots (t : Char → Option (List Char)) : List Slot :=
  driveLetters.filterMap fun c =>
    match t c with
    | some src => some ⟨c, src, none, none⟩
    | none => none

/-- Is the event a MapDrive invocation. -/
def isMapEv : Event → Bool
  | .map _ _ => true
  | _ => false

/-- Is the event a source-directory lock acquisition. -/
def isLockEv : Event → Bool
  | .lockSource _ => true
  | _ => false

/-- The letters of the source-lock acquisitions in a trace, in order. -/
def lockLetters (tr : List Event) : List Char :=
  tr.filterMap fun e => match e with | .lockSource c => some c | _ => none

/-- The letters of the MapDrive invocations in a trace, in order. -/
def mapLetters (tr : List Event) : List Char :=
  tr.filterMap fun e => match e with | .map c _ => some c | _ => none

/-- A single-slot table: drive B from c:\bsrc\. -/
def slotsB : List Slot := [⟨'B', "c:\\bsrc\\".data, none, none⟩]

/-- A two-slot table: drive B from c:\bsrc\ and drive C from c:\csrc\. -/
def slotsBC : List Slot :=
  [⟨'B', "c:\\bsrc\\".data, none, none⟩, ⟨'C', "c:\\csrc\\".data, none, none⟩]

/-- Environment in which the subst binding for B silently fails: every
enumeration succeeds but reports no mapping for any letter, while the
drive lock file opens fine. -/
def envAssert : Env where
  srcAttr := fun _ => .dir
  openSource := fun _ => .ok 3
  enumerate := fun _ => some (fun _ => none)
  openDrive := fun _ => .ok 7
  rootAttr := fun _ => .dir
  childExit := 0

/-- Environment in which the first enumeration fails, the drive lock is
contended once, and the second enumeration reports B correctly mapped. -/
def envEnumFail : Env where
  srcAttr := fun _ => .dir
  openSource := fun _ => .ok 3
  enumerate := fun k =>
    if k = 0 then none
    else some (fun c => if c == 'B' then some "c:\\bsrc\\".data else none)
  openDrive := fun _ => .sharing
  rootAttr := fun _ => .dir
  childExit := 0

/-- Environment in which B is found mapped elsewhere and the drive lock file
open fails with a non-sharing error while the drive root is a directory: the
fatal path at line 914. -/
def envFatalDriveLock : Env where
  srcAttr := fun _ => .dir
  openSource := fun k => .ok (3 + k)
  enumerate := fun _ =>
    some (fun c => if c == 'B' then some "q:\\other\\".data else none)
  openDrive := fun _ => .other 5
  rootAttr := fun _ => .dir
  childExit := 0

/-- Environment whose first two source-lock opens hit a sharing violation and
whose third succeeds. -/
def envShareTwice : Env where
  srcAttr := fun _ => .dir
  openSource := fun k => if k < 2 then .sharing else .ok 9
  enumerate := fun _ => some (fun c => if c == 'B' then some "c:\\bsrc\\".data else none)
  openDrive := fun _ => .sharing
  rootAttr := fun _ => .dir
  childExit := 0

/-- Environment whose very first source-lock open fails with a non-sharing
error. -/
def envOtherAtZero : Env where
  srcAttr := fun _ => .dir
  openSource := fun _ => .other 5
  enumerate := fun _ => none
  openDrive := fun _ => .sharing
  rootAttr := fun _ => .dir
  childExit := 0

/-- Environment in which the source directory does not exist. -/
def envBadSrc : Env where
  srcAttr := fun _ => .invalid
  openSource := fun _ => .ok 3
  enumerate := fun _ => none
  openDrive := fun _ => .sharing
  rootAttr := fun _ => .dir
  childExit := 0

/-- wcsstr(hay, pat) == hay (line 687): pat occurs at the very start of
hay. -/
def headMatches : List Char → List Char → Bool
  | [], _ => true
  | _ :: _, [] => false
  | p :: ps, h :: hs => p == h && headMatches ps hs

/-- The scan over the ordered slot table at lines 678-702: for each present
slot whose source directory starts the normalized current directory and whose
length strictly exceeds the best length seen so far, remember
letter:\ followed by the rest of the current directory after the matched
part. -/
def remapScan (ncur : List Char) :
    List ParseSlot → Nat → Option (List Char) → Option (List Char)
  | [], _, best => best
  | s :: rest, longest, best =>
    if headMatches s.src ncur ∧ longest < s.src.length then
      remapScan ncur rest s.src.length
        (some (s.letter :: ':' :: '\\' :: ncur.drop s.src.length))
    else
      remapScan ncur rest longest best

/-- The working-directory rewrite of ExecuteProcess (lines 652-709): the
current directory is lower-cased and given a trailing backslash, the ordered
slots are scanned for the strictly-longest matching source directory, and if
none matches the normalized current directory is used unchanged
(lines 705-709). -/
def remapCurrentDir (slots : List ParseSlot) (cur : List Char) : List Char :=
  let ncur := lowerTrailingSep cur
  match remapScan ncur slots 0 none with
  | some d => d
  | none => ncur

/-- The slots whose source directory starts the normalized current
directory. -/
def specMatches (slots : List ParseSlot) (ncur : List Char) : List ParseSlot :=
  slots.filter fun s => headMatches s.src ncur

/-- The longest source length among the matching slots. -/
def specBestLen (slots : List ParseSlot) (ncur : List Char) : Nat :=
  ((specMatches slots ncur).map fun s => s.src.length).foldr Nat.max 0

/-- Modelled from the spec: among the slots whose source directory starts the
normalized current directory, take the first slot in scan order attaining the
longest source length and rewrite the directory to letter:\suffix, where
suffix is the remainder after the matched part; with no matching slot keep the
normalized current directory unchanged. -/
def specRemap (slots : List ParseSlot) (cur : List Char) : List Char :=
  let ncur := lowerTrailingSep cur
  match (specMatches slots ncur).find?
      (fun s => s.src.length == specBestLen slots ncur) with
  | some s => s.letter :: ':' :: '\\' :: ncur.drop s.src.length
  | none => ncur

/-- The two slots of the worked example: c:\work\ on X and c:\work\sub\
on Y. -/
def exampleSlots : List ParseSlot :=
  [⟨'X', "c:\\work\\".data⟩, ⟨'Y', "c:\\work\\sub\\".data⟩]

/-- The events of a mismatch-repair decision. -/
def mstepEvs : MStep → List Event
  | .retry evs => evs
  | .fatalStop evs => evs

/-- Result of the cleanup loop on a list whose handles are all valid. -/
theorem cleanup_code_eq (slots : List Slot) (code : Int) :
    (cleanup slots code).2 =
      if slots.any (fun s => s.handle.isNone) then 1 else code := by
  induction slots with
  | nil => simp [cleanup]
  | cons s rest ih =>
    cases h : s.handle with
    | none => simp [cleanup, h]
    | some v => simp [cleanup, h, ih]

/-- C10. MapDrive returns 0 for every outcome of the external subst
invocation, including a failed CreateProcess and a non-zero subst exit code,
both of which MapUnmapSubstExecute itself reports as 1; a failed bind is
therefore never observable from MapDrive's return value. -/
theorem c10_mapdrive_returns_zero :
    (∀ r : SpawnResult, MapDrive r = 0)
    ∧ MapUnmapSubstExecute SpawnResult.createFail = 1
    ∧ MapUnmapSubstExecute (SpawnResult.exited 3) = 1 :=
  ⟨fun _ => rfl, rfl, rfl⟩

/-- C3. The second lock file of the mismatch-repair branch is opened on the
path letter, chr(150), ".SubstLock" — the integer sum of the three wide
literals at line 868 — which differs from the drive-root sentinel
letter:\ .SubstLock that the spec describes, for every letter. -/
theorem c3_drive_lock_path_not_at_root :
    driveLockPath 'X' =
      ['X', Char.ofNat 150, '.', 'S', 'u', 'b', 's', 't', 'L', 'o', 'c', 'k']
    ∧ (∀ c : Char, driveLockPath c ≠ driveRootLockPathSpec c) := by
  constructor
  · decide
  · intro c h
    have hlen := congrArg List.length h
    have h10 : SUBST_FILE_NAME.length = 10 := by decide
    simp [driveLockPath, driveRootLockPathSpec, h10] at hlen

/-- C2. The duplicate-letter update path always calls wcscpy_s with a
destination size equal to the new string's length, one wchar too small for
the terminator, so the copy always fails its runtime constraint and the slot
never receives the last-specified path; a single occurrence of the letter is
stored correctly, lower-cased with a trailing separator. -/
theorem c2_duplicate_update_fails :
    (∀ s : List Char, wcscpy_s s.length s = none)
    ∧ parseArgs (fun _ => FileAttr.dir)
        ["X=c:\\a".data, "X=c:\\b".data, "cmd.exe".data] [] 1 =
        ParseOutcome.crashed
    ∧ parseArgs (fun _ => FileAttr.dir) ["X=c:\\a".data, "cmd.exe".data] [] 1 =
        ParseOutcome.done [⟨'X', "c:\\a\\".data⟩] (some 2) := by
  refine ⟨fun s => ?_, by decide, by decide⟩
  simp [wcscpy_s]

/-- C5 counterexample. With a child exit code of 0 and a slot whose lock
handle is invalid at cleanup time, cleanup returns 1, not the child's exit
code. -/
theorem c5_counterexample :
    (cleanup [⟨'B', "c:\\bsrc\\".data, none, none⟩] 0).2 = 1
    ∧ (1 : Int) ≠ 0 := by
  refine ⟨by decide, by decide⟩

/-- C5 as amended. An invalid lock handle at cleanup time makes cleanup
return 1 in place of the child's exit code (the returned code is 1 exactly
when some slot's handle is invalid, else the child's code), and the LogToFile
call on that slot writes nothing because LogToFile is a no-op for an invalid
handle. -/
theorem c5_amended :
    (∀ (slots : List Slot) (code : Int),
      (cleanup slots code).2 =
        if slots.any (fun s => s.handle.isNone) then 1 else code)
    ∧ logToFileWrites none = false :=
  ⟨fun slots code => cleanup_code_eq slots code, rfl⟩

/-- C9. The assertion at line 926 is reachable: when the subst binding
silently fails (enumeration succeeds but reports no mapping for the letter,
so szMappedPath stays null) and the drive lock file opens successfully, the
else-if guard at line 917 is false and control falls through to the
assertion. -/
theorem c9_assert_reachable :
    Event.assertHit ∈ (substDrivesAndExecute envAssert 2 slotsB).1
    ∧ Event.enum true ∈ (substDrivesAndExecute envAssert 2 slotsB).1
    ∧ Event.openDriveLock 'B' (driveLockPath 'B') true
        ∈ (substDrivesAndExecute envAssert 2 slotsB).1 := by
  refine ⟨by decide, by decide, by decide⟩

/-- C4 counterexample. A run whose first enumeration fails still completes
with the child's exit code 0: the failure is not surfaced by
SubstDrivesAndExecute (line 855 discards the return value) and enumeration is
invoked again on the next loop iteration. -/
theorem c4_counterexample :
    (substDrivesAndExecute envEnumFail 5 slotsB).2 = some 0
    ∧ (substDrivesAndExecute envEnumFail 5 slotsB).1.count (Event.enum false) = 1
    ∧ (substDrivesAndExecute envEnumFail 5 slotsB).1.count (Event.enum true) = 1 := by
  refine ⟨by decide, by decide, by decide⟩

/-- C6 counterexample. A run that fails fatally in the mapping loop after both
source locks were acquired returns 1 without force-unmapping and without
closing any lock handle. -/
theorem c6_counterexample :
    (substDrivesAndExecute envFatalDriveLock 5 slotsBC).2 = some 1
    ∧ Event.lockSource 'B' ∈ (substDrivesAndExecute envFatalDriveLock 5 slotsBC).1
    ∧ Event.lockSource 'C' ∈ (substDrivesAndExecute envFatalDriveLock 5 slotsBC).1
    ∧ Event.unmap 'B' ∉ (substDrivesAndExecute envFatalDriveLock 5 slotsBC).1
    ∧ Event.closeLock 'B' ∉ (substDrivesAndExecute envFatalDriveLock 5 slotsBC).1
    ∧ Event.closeLock 'C' ∉ (substDrivesAndExecute envFatalDriveLock 5 slotsBC).1 := by
  refine ⟨by decide, by decide, by decide, by decide, by decide, by decide⟩

/-- Shape of the retry loop after n straight sharing violations followed by a
successful open: n sleeps of the fixed interval, then the handle. -/
theorem acquire_ok_of_sharing (env : Env) :
    ∀ (n k fuel h : Nat), (∀ j, j < n → env.openSource (k + j) = OpenResult.sharing) →
      env.openSource (k + n) = OpenResult.ok h → n < fuel →
      acquireSourceLock env k fuel =
        (List.replicate n (Event.sleep RUN_IN_SUBST_TIMEOUT),
         AcqOut.acquired h (k + n + 1)) := by
  intro n
  induction n with
  | zero =>
    intro k fuel h _hsh hok hfuel
    cases fuel with
    | zero => omega
    | succ m =>
      have h0 : env.openSource k = OpenResult.ok h := by simpa using hok
      simp [acquireSourceLock, h0]
  | succ n ih =>
    intro k fuel h hsh hok hfuel
    cases fuel with
    | zero => omega
    | succ m =>
      have h0 : env.openSource k = OpenResult.sharing := by
        simpa using hsh 0 (Nat.succ_pos n)
      have hrec := ih (k + 1) m h
        (fun j hj => by
          have := hsh (j + 1) (by omega)
          simpa [Nat.add_assoc, Nat.add_comm, Nat.add_left_comm] using this)
        (by
          have := hok
          simpa [Nat.add_assoc, Nat.add_comm, Nat.add_left_comm] using this)
        (by omega)
      have harr : k + 1 + n + 1 = k + (n + 1) + 1 := by omega
      rw [harr] at hrec
      simp [acquireSourceLock, h0, hrec, List.replicate_succ]

/-- Shape of the retry loop after n straight sharing violations followed by
any other error: n sleeps, then a fatal stop with no further attempt. -/
theorem acquire_fatal_of_sharing (env : Env) :
    ∀ (n k fuel e : Nat), (∀ j, j < n → env.openSource (k + j) = OpenResult.sharing) →
      env.openSource (k + n) = OpenResult.other e → n < fuel →
      acquireSourceLock env k fuel =
        (List.replicate n (Event.sleep RUN_IN_SUBST_TIMEOUT), AcqOut.fatal) := by
  intro n
  induction n with
  | zero =>
    intro k fuel e _hsh hother hfuel
    cases fuel with
    | zero => omega
    | succ m =>
      have h0 : env.openSource k = OpenResult.other e := by simpa using hother
      simp [acquireSourceLock, h0]
  | succ n ih =>
    intro k fuel e hsh hother hfuel
    cases fuel with
    | zero => omega
    | succ m =>
      have h0 : env.openSource k = OpenResult.sharing := by
        simpa using hsh 0 (Nat.succ_pos n)
      have hrec := ih (k + 1) m e
        (fun j hj => by
          have := hsh (j + 1) (by omega)
          simpa [Nat.add_assoc, Nat.add_comm, Nat.add_left_comm] using this)
        (by
          have := hother
          simpa [Nat.add_assoc, Nat.add_comm, Nat.add_left_comm] using this)
        (by omega)
      simp [acquireSourceLock, h0, hrec, List.replicate_succ]

/-- C7. Lock acquisition waits the fixed RUN_IN_SUBST_TIMEOUT = 5000 ms
interval after each sharing violation and retries with no bound (any number n
of straight sharing violations is survived); any other open error on a
source-directory lock file is fatal with no retry, and the run then returns
exit code 1. -/
theorem c7_contention_retry_fatal_exit :
    RUN_IN_SUBST_TIMEOUT = 5000
    ∧ (∀ (env : Env) (n h fuel : Nat),
        (∀ j, j < n → env.openSource j = OpenResult.sharing) →
        env.openSource n = OpenResult.ok h → n < fuel →
        acquireSourceLock env 0 fuel =
          (List.replicate n (Event.sleep RUN_IN_SUBST_TIMEOUT),
           AcqOut.acquired h (n + 1)))
    ∧ (∀ (env : Env) (n e fuel : Nat),
        (∀ j, j < n → env.openSource j = OpenResult.sharing) →
        env.openSource n = OpenResult.other e → n < fuel →
        acquireSourceLock env 0 fuel =
          (List.replicate n (Event.sleep RUN_IN_SUBST_TIMEOUT), AcqOut.fatal))
    ∧ (∀ (env : Env) (s : Slot) (rest : List Slot) (fuel e : Nat),
        env.srcAttr s.src = FileAttr.dir →
        env.openSource 0 = OpenResult.other e →
        (substDrivesAndExecute env (fuel + 1) (s :: rest)).2 = some 1) := by
  refine ⟨rfl, ?_, ?_, ?_⟩
  · intro env n h fuel hsh hok hfuel
    have := acquire_ok_of_sharing env n 0 fuel h
      (fun j hj => by simpa using hsh j hj) (by simpa using hok) hfuel
    simpa using this
  · intro env n e fuel hsh hother hfuel
    have := acquire_fatal_of_sharing env n 0 fuel e
      (fun j hj => by simpa using hsh j hj) (by simpa using hother) hfuel
    simpa using this
  · intro env s rest fuel e hattr hopen
    simp [substDrivesAndExecute, phase1, acquireSourceLock, hattr, hopen]

/-- Instantiation of c7_contention_retry_fatal_exit: two sharing violations
then success on a concrete environment, and a fatal run on an environment
whose first open fails with error 5. -/
theorem c7_witness :
    acquireSourceLock envShareTwice 0 5 =
      (List.replicate 2 (Event.sleep RUN_IN_SUBST_TIMEOUT), AcqOut.acquired 9 3)
    ∧ (substDrivesAndExecute envOtherAtZero 3 slotsB).2 = some 1 := by
  constructor
  · exact c7_contention_retry_fatal_exit.2.1 envShareTwice 2 9 5
      (fun j hj => by interval_cases j <;> rfl) rfl (by omega)
  · exact c7_contention_retry_fatal_exit.2.2.2 envOtherAtZero
      ⟨'B', "c:\\bsrc\\".data, none, none⟩ [] 2 5 rfl rfl

/-- Every event of the lock-acquisition retry loop is a sleep of the fixed
interval. -/
theorem acquire_events (env : Env) :
    ∀ (fuel k : Nat), ∀ e ∈ (acquireSourceLock env k fuel).1,
      e = Event.sleep RUN_IN_SUBST_TIMEOUT := by
  intro fuel
  induction fuel with
  | zero => intro k e he; simp [acquireSourceLock] at he
  | succ m ih =>
    intro k e he
    cases hop : env.openSource k with
    | ok h => simp [acquireSourceLock, hop] at he
    | sharing =>
      simp only [acquireSourceLock, hop, List.mem_cons] at he
      rcases he with he | he
      · exact he
      · exact ih (k + 1) e he
    | other err => simp [acquireSourceLock, hop] at he

/-- Every event of the source-lock phase is a sleep or a source-lock
acquisition: in particular the phase applies no mapping, no unmap and closes
no handle. -/
theorem phase1_events (env : Env) (fuel : Nat) :
    ∀ (slots : List Slot) (k : Nat), ∀ e ∈ (phase1 env fuel k slots).1,
      e = Event.sleep RUN_IN_SUBST_TIMEOUT ∨ ∃ c, e = Event.lockSource c := by
  intro slots
  induction slots with
  | nil => intro k e he; simp [phase1] at he
  | cons s rest ih =>
    intro k e he
    cases hat : env.srcAttr s.src with
    | invalid => simp [phase1, hat] at he
    | file => simp [phase1, hat] at he
    | dir =>
      rcases hacq : acquireSourceLock env k fuel with ⟨tr, out⟩
      have htr : ∀ x ∈ tr, x = Event.sleep RUN_IN_SUBST_TIMEOUT := by
        intro x hx
        exact acquire_events env fuel k x (by rw [hacq]; exact hx)
      cases out with
      | acquired h k2 =>
        simp only [phase1, hat, hacq, List.mem_append, List.mem_cons] at he
        rcases he with he | he | he
        · exact .inl (htr e he)
        · exact .inr ⟨s.letter, he⟩
        · exact ih k2 e he
      | fatal =>
        simp only [phase1, hat, hacq] at he
        exact .inl (htr e he)
      | fuelOut =>
        simp only [phase1, hat, hacq] at he
        exact .inl (htr e he)

/-- The cleanup loop on slots whose handles are all valid unmaps every slot
and closes every handle. -/
theorem cleanup_valid_trace :
    ∀ (slots : List Slot) (code : Int), (∀ s ∈ slots, s.handle.isSome) →
      ∀ s ∈ slots, Event.unmap s.letter ∈ (cleanup slots code).1
        ∧ Event.closeLock s.letter ∈ (cleanup slots code).1 := by
  intro slots
  induction slots with
  | nil => intro code _ s hs; simp at hs
  | cons a rest ih =>
    intro code hv s hs
    obtain ⟨v, hv2⟩ := Option.isSome_iff_exists.mp (hv a (List.mem_cons_self a rest))
    rcases List.mem_cons.mp hs with h | h
    · subst h
      exact ⟨by simp [cleanup, hv2], by simp [cleanup, hv2]⟩
    · have hrec := ih code (fun x hx => hv x (List.mem_cons_of_mem a hx)) s h
      refine ⟨?_, ?_⟩
      · simp only [cleanup, hv2, List.mem_cons]
        exact .inr (.inr hrec.1)
      · simp only [cleanup, hv2, List.mem_cons]
        exact .inr (.inr hrec.2)

/-- C6 as amended. Force-unmapping and handle-closing happen only in the
cleanup pass that runs after the child process has executed: when every
handle is valid, cleanup unmaps every slot, closes every handle and returns
the child's exit code; a run that fails fatally in the source-lock phase,
however, returns 1 at once with no unmap and no handle close for the slots
already locked — the code defers handle release to OS process teardown and
leaves applied mappings in place. -/
theorem c6_amended :
    (∀ (slots : List Slot) (code : Int), (∀ s ∈ slots, s.handle.isSome) →
      (cleanup slots code).2 = code
      ∧ ∀ s ∈ slots, Event.unmap s.letter ∈ (cleanup slots code).1
          ∧ Event.closeLock s.letter ∈ (cleanup slots code).1)
    ∧ (∀ (env : Env) (fuel : Nat) (slots : List Slot),
        (phase1 env fuel 0 slots).2 = P1Out.fatal →
        (substDrivesAndExecute env fuel slots).2 = some 1
        ∧ ∀ c, Event.unmap c ∉ (substDrivesAndExecute env fuel slots).1
            ∧ Event.closeLock c ∉ (substDrivesAndExecute env fuel slots).1) := by
  constructor
  · intro slots code hv
    refine ⟨?_, cleanup_valid_trace slots code hv⟩
    rw [cleanup_code_eq]
    have : slots.any (fun s => s.handle.isNone) = false := by
      rw [List.any_eq_false]
      intro s hs
      have := hv s hs
      simp [Option.isNone, Option.isSome] at this ⊢
      cases h : s.handle with
      | none => rw [h] at this; simp at this
      | some v => simp
    simp [this]
  · intro env fuel slots hfatal
    rcases h1 : phase1 env fuel 0 slots with ⟨tr1, out⟩
    rw [h1] at hfatal
    simp only at hfatal
    subst hfatal
    have hsub : substDrivesAndExecute env fuel slots = (tr1, some 1) := by
      simp [substDrivesAndExecute, h1]
    refine ⟨by rw [hsub], fun c => ⟨?_, ?_⟩⟩
    · intro hmem
      rw [hsub] at hmem
      rcases phase1_events env fuel slots 0 (Event.unmap c) (by rw [h1]; exact hmem)
        with h | ⟨d, h⟩ <;> simp at h
    · intro hmem
      rw [hsub] at hmem
      rcases phase1_events env fuel slots 0 (Event.closeLock c) (by rw [h1]; exact hmem)
        with h | ⟨d, h⟩ <;> simp at h

/-- Instantiation of c6_amended: a valid-handle cleanup returning the child's
exit code, and a fatal run (invalid source) returning 1. -/
theorem c6_amended_witness :
    (cleanup [⟨'A', "c:\\asrc\\".data, none, some 2⟩] 7).2 = 7
    ∧ (substDrivesAndExecute envBadSrc 3 slotsB).2 = some 1 := by
  constructor
  · exact (c6_amended.1 [⟨'A', "c:\\asrc\\".data, none, some 2⟩] 7 (by decide)).1
  · exact (c6_amended.2 envBadSrc 3 slotsB (by decide)).1

/-- Every iteration of the mapping loop begins with a MapDrive invocation and
an enumeration, whatever the branch taken afterwards. -/
theorem phase2_cons_head (env : Env) (fuel ek dk : Nat) (done : List Slot)
    (s : Slot) (rest : List Slot) :
    ∃ t, (phase2 env (fuel + 1) ek dk done (s :: rest)).1 =
      Event.map s.letter s.src :: Event.enum (env.enumerate ek).isSome :: t := by
  by_cases hv : (applyEnum (env.enumerate ek) s).mapped
      = some (applyEnum (env.enumerate ek) s).src
  · exact ⟨(phase2 env fuel (ek + 1) dk
        (done.map (applyEnum (env.enumerate ek)) ++ [applyEnum (env.enumerate ek) s])
        (rest.map (applyEnum (env.enumerate ek)))).1,
      by simp [phase2, hv]⟩
  · cases hms : mismatchStep env dk (applyEnum (env.enumerate ek) s) with
    | retry evs =>
      exact ⟨evs ++ (phase2 env fuel (ek + 1) (dk + 1)
          (done.map (applyEnum (env.enumerate ek)))
          (applyEnum (env.enumerate ek) s ::
            rest.map (applyEnum (env.enumerate ek)))).1,
        by simp [phase2, hv, hms]⟩
    | fatalStop evs => exact ⟨evs, by simp [phase2, hv, hms]⟩

/-- C4 as amended. GetMappedPaths itself returns 1 at once on each setup
failure (pipe creation, pipe configuration, subprocess creation, closing the
write handle) with no retry inside the function; but SubstDrivesAndExecute
discards that return value at line 855, so the failure is not surfaced and is
not fatal: with the slot still unverified, the loop treats the situation as a
mismatch and, after the drive-lock step, re-invokes MapDrive and the
enumeration on the next iteration. -/
theorem c4_amended :
    (∀ st, st ≠ EnumStage.readOk → getMappedPathsRet st = 1)
    ∧ (∀ (env : Env) (fuel ek dk : Nat) (done : List Slot) (s : Slot)
        (rest : List Slot),
        env.enumerate ek = none → s.mapped ≠ some s.src →
        env.openDrive dk = OpenResult.sharing →
        (phase2 env (fuel + 2) ek dk done (s :: rest)).1.take 5 =
          [Event.map s.letter s.src, Event.enum false,
           Event.openDriveLock s.letter (driveLockPath s.letter) false,
           Event.sleep RUN_IN_SUBST_TIMEOUT, Event.map s.letter s.src]) := by
  constructor
  · intro st hst
    cases st with
    | readOk => exact absurd rfl hst
    | createPipeFail => rfl
    | setHandleInfoFail => rfl
    | createProcessFail => rfl
    | closeWriteFail => rfl
  · intro env fuel ek dk done s rest henum hmis hshare
    have hms : mismatchStep env dk s =
        MStep.retry [Event.openDriveLock s.letter (driveLockPath s.letter) false,
                     Event.sleep RUN_IN_SUBST_TIMEOUT] := by
      simp [mismatchStep, hshare]
    obtain ⟨t, ht⟩ := phase2_cons_head env fuel (ek + 1) (dk + 1)
      (done.map (applyEnum none)) s (rest.map (applyEnum none))
    have hstep : (phase2 env (fuel + 1 + 1) ek dk done (s :: rest)).1 =
        Event.map s.letter s.src :: Event.enum false ::
          (Event.openDriveLock s.letter (driveLockPath s.letter) false ::
            Event.sleep RUN_IN_SUBST_TIMEOUT ::
              (phase2 env (fuel + 1) (ek + 1) (dk + 1)
                (done.map (applyEnum none))
                (s :: rest.map (applyEnum none))).1) := by
      simp [phase2, henum, applyEnum, hmis, hms]
    rw [show fuel + 2 = fuel + 1 + 1 from rfl, hstep, ht]
    simp

/-- Instantiation of c4_amended on a concrete environment whose first
enumeration fails. -/
theorem c4_amended_witness :
    (phase2 envEnumFail 2 0 0 [] [⟨'B', "c:\\bsrc\\".data, none, some 3⟩]).1.take 5 =
      [Event.map 'B' "c:\\bsrc\\".data, Event.enum false,
       Event.openDriveLock 'B' (driveLockPath 'B') false,
       Event.sleep RUN_IN_SUBST_TIMEOUT, Event.map 'B' "c:\\bsrc\\".data]
    ∧ getMappedPathsRet EnumStage.createPipeFail = 1 := by
  constructor
  · exact c4_amended.2 envEnumFail 0 0 0 [] ⟨'B', "c:\\bsrc\\".data, none, some 3⟩ []
      rfl (by decide) rfl
  · exact c4_amended.1 EnumStage.createPipeFail (by decide)

/-- A trace with no source-lock event contributes nothing to lockLetters. -/
theorem lockLetters_nil_of (tr : List Event) (h : ∀ e ∈ tr, isLockEv e = false) :
    lockLetters tr = [] := by
  rw [lockLetters, List.filterMap_eq_nil_iff]
  intro e he
  have := h e he
  cases e <;> simp [isLockEv] at this ⊢

/-- A trace with no MapDrive event contributes nothing to mapLetters. -/
theorem mapLetters_nil_of (tr : List Event) (h : ∀ e ∈ tr, isMapEv e = false) :
    mapLetters tr = [] := by
  rw [mapLetters, List.filterMap_eq_nil_iff]
  intro e he
  have := h e he
  cases e <;> simp [isMapEv] at this ⊢

/-- lockLetters distributes over trace concatenation. -/
theorem lockLetters_append (t1 t2 : List Event) :
    lockLetters (t1 ++ t2) = lockLetters t1 ++ lockLetters t2 := by
  simp [lockLetters]

/-- mapLetters distributes over trace concatenation. -/
theorem mapLetters_append (t1 t2 : List Event) :
    mapLetters (t1 ++ t2) = mapLetters t1 ++ mapLetters t2 := by
  simp [mapLetters]

/-- A source-lock event prepends its letter to lockLetters. -/
theorem lockLetters_cons_lock (c : Char) (t : List Event) :
    lockLetters (Event.lockSource c :: t) = c :: lockLetters t := by
  simp [lockLetters, List.filterMap_cons]

/-- A MapDrive event prepends its letter to mapLetters. -/
theorem mapLetters_cons_map (c : Char) (p : List Char) (t : List Event) :
    mapLetters (Event.map c p :: t) = c :: mapLetters t := by
  simp [mapLetters, List.filterMap_cons]

/-- An enumeration event is invisible to mapLetters. -/
theorem mapLetters_cons_enum (b : Bool) (t : List Event) :
    mapLetters (Event.enum b :: t) = mapLetters t := by
  simp [mapLetters, List.filterMap_cons]

/-- A child-execution event is invisible to mapLetters. -/
theorem mapLetters_cons_exec (x : Int) (t : List Event) :
    mapLetters (Event.execChild x :: t) = mapLetters t := by
  simp [mapLetters, List.filterMap_cons]

/-- A child-execution event is invisible to lockLetters. -/
theorem lockLetters_cons_exec (x : Int) (t : List Event) :
    lockLetters (Event.execChild x :: t) = lockLetters t := by
  simp [lockLetters, List.filterMap_cons]

/-- One verified iteration of the mapping loop. -/
theorem phase2_verified_eq (env : Env) (fuel ek dk : Nat) (done : List Slot)
    (s : Slot) (rest : List Slot)
    (hv : (applyEnum (env.enumerate ek) s).mapped
      = some (applyEnum (env.enumerate ek) s).src) :
    phase2 env (fuel + 1) ek dk done (s :: rest) =
      (Event.map s.letter s.src :: Event.enum (env.enumerate ek).isSome ::
         (phase2 env fuel (ek + 1) dk
           (done.map (applyEnum (env.enumerate ek)) ++ [applyEnum (env.enumerate ek) s])
           (rest.map (applyEnum (env.enumerate ek)))).1,
       (phase2 env fuel (ek + 1) dk
           (done.map (applyEnum (env.enumerate ek)) ++ [applyEnum (env.enumerate ek) s])
           (rest.map (applyEnum (env.enumerate ek)))).2) := by
  simp [phase2, hv]

/-- One mismatched iteration whose repair decision is to retry. -/
theorem phase2_retry_eq (env : Env) (fuel ek dk : Nat) (done : List Slot)
    (s : Slot) (rest : List Slot) (evs : List Event)
    (hv : ¬ (applyEnum (env.enumerate ek) s).mapped
      = some (applyEnum (env.enumerate ek) s).src)
    (hms : mismatchStep env dk (applyEnum (env.enumerate ek) s) = MStep.retry evs) :
    phase2 env (fuel + 1) ek dk done (s :: rest) =
      (Event.map s.letter s.src :: Event.enum (env.enumerate ek).isSome ::
         (evs ++ (phase2 env fuel (ek + 1) (dk + 1)
            (done.map (applyEnum (env.enumerate ek)))
            (applyEnum (env.enumerate ek) s ::
              rest.map (applyEnum (env.enumerate ek)))).1),
       (phase2 env fuel (ek + 1) (dk + 1)
          (done.map (applyEnum (env.enumerate ek)))
          (applyEnum (env.enumerate ek) s ::
            rest.map (applyEnum (env.enumerate ek)))).2) := by
  simp [phase2, hv, hms]

/-- One mismatched iteration whose repair decision is the fatal stop. -/
theorem phase2_fatal_eq (env : Env) (fuel ek dk : Nat) (done : List Slot)
    (s : Slot) (rest : List Slot) (evs : List Event)
    (hv : ¬ (applyEnum (env.enumerate ek) s).mapped
      = some (applyEnum (env.enumerate ek) s).src)
    (hms : mismatchStep env dk (applyEnum (env.enumerate ek) s) = MStep.fatalStop evs) :
    phase2 env (fuel + 1) ek dk done (s :: rest) =
      (Event.map s.letter s.src :: Event.enum (env.enumerate ek).isSome :: evs,
       P2Out.fatal) := by
  simp [phase2, hv, hms]

/-- lockLetters of the source-lock phase is an initial segment of the slot
letters in order, and exactly the whole list when the phase succeeds, in which
case the locked slots also keep the letters in order. -/
theorem phase1_lockLetters (env : Env) (fuel : Nat) :
    ∀ (slots : List Slot) (k : Nat),
      (∃ n, lockLetters (phase1 env fuel k slots).1 = (slots.map Slot.letter).take n)
      ∧ (∀ locked k2, (phase1 env fuel k slots).2 = P1Out.ok locked k2 →
          lockLetters (phase1 env fuel k slots).1 = slots.map Slot.letter
          ∧ locked.map Slot.letter = slots.map Slot.letter) := by
  intro slots
  induction slots with
  | nil =>
    intro k
    constructor
    · exact ⟨0, by simp [phase1, lockLetters]⟩
    · intro locked k2 h
      simp only [phase1] at h
      injection h with h1 h2
      subst h1
      simp [phase1, lockLetters]
  | cons s rest ih =>
    intro k
    cases hat : env.srcAttr s.src with
    | invalid =>
      constructor
      · exact ⟨0, by simp [phase1, hat, lockLetters]⟩
      · intro locked k2 h
        simp [phase1, hat] at h
    | file =>
      constructor
      · exact ⟨0, by simp [phase1, hat, lockLetters]⟩
      · intro locked k2 h
        simp [phase1, hat] at h
    | dir =>
      rcases hacq : acquireSourceLock env k fuel with ⟨tr, out⟩
      have htr : lockLetters tr = [] :=
        lockLetters_nil_of tr (fun e he => by
          have := acquire_events env fuel k e (by rw [hacq]; exact he)
          subst this; rfl)
      cases out with
      | acquired h k2 =>
        obtain ⟨⟨n, hn⟩, hok⟩ := ih k2
        have htrace : (phase1 env fuel k (s :: rest)).1 =
            tr ++ Event.lockSource s.letter :: (phase1 env fuel k2 rest).1 := by
          simp [phase1, hat, hacq]
        constructor
        · refine ⟨n + 1, ?_⟩
          rw [htrace, lockLetters_append, htr, List.nil_append,
            lockLetters_cons_lock, hn]
          simp [List.take_succ_cons]
        · intro locked k3 hP
          have hP2 : (match (phase1 env fuel k2 rest).2 with
              | P1Out.ok locked k4 =>
                  P1Out.ok (⟨s.letter, s.src, s.mapped, some h⟩ :: locked) k4
              | P1Out.fatal => P1Out.fatal
              | P1Out.fuelOut => P1Out.fuelOut) = P1Out.ok locked k3 := by
            rw [← hP]
            simp [phase1, hat, hacq]
          cases hrec : (phase1 env fuel k2 rest).2 with
          | ok l2 k4 =>
            rw [hrec] at hP2
            simp only at hP2
            injection hP2 with hA hB
            obtain ⟨hfull, hlet⟩ := hok l2 k4 hrec
            constructor
            · rw [htrace, lockLetters_append, htr, List.nil_append,
                lockLetters_cons_lock, hfull]
              simp
            · rw [← hA]
              simp [hlet]
          | fatal => rw [hrec] at hP2; simp at hP2
          | fuelOut => rw [hrec] at hP2; simp at hP2
      | fatal =>
        constructor
        · refine ⟨0, ?_⟩
          have : (phase1 env fuel k (s :: rest)).1 = tr := by
            simp [phase1, hat, hacq]
          rw [this, htr]
          simp
        · intro locked k2 h
          have : (phase1 env fuel k (s :: rest)).2 = P1Out.fatal := by
            simp [phase1, hat, hacq]
          rw [this] at h
          simp at h
      | fuelOut =>
        constructor
        · refine ⟨0, ?_⟩
          have : (phase1 env fuel k (s :: rest)).1 = tr := by
            simp [phase1, hat, hacq]
          rw [this, htr]
          simp
        · intro locked k2 h
          have : (phase1 env fuel k (s :: rest)).2 = P1Out.fuelOut := by
            simp [phase1, hat, hacq]
          rw [this] at h
          simp at h

/-- applyEnum never changes a slot's letter. -/
theorem applyEnum_letter (r : Option (Char → Option (List Char))) (s : Slot) :
    (applyEnum r s).letter = s.letter := by
  cases r with
  | none => rfl
  | some snap =>
    cases hsn : snap s.letter <;> simp [applyEnum, updMapped, hsn]

/-- applyEnum never changes the letters of a slot list. -/
theorem map_applyEnum_letters (r : Option (Char → Option (List Char)))
    (l : List Slot) :
    (l.map (applyEnum r)).map Slot.letter = l.map Slot.letter := by
  rw [List.map_map]
  exact List.map_congr_left fun s _ => applyEnum_letter r s

/-- No event of a mismatch-repair decision is a source-lock acquisition or a
MapDrive invocation. -/
theorem mstep_events (env : Env) (dk : Nat) (s2 : Slot) :
    ∀ e ∈ mstepEvs (mismatchStep env dk s2),
      isLockEv e = false ∧ isMapEv e = false := by
  intro e he
  cases hop : env.openDrive dk with
  | sharing =>
    simp [mismatchStep, hop, mstepEvs] at he
    rcases he with rfl | rfl <;> exact ⟨rfl, rfl⟩
  | other err =>
    cases hra : env.rootAttr s2.letter with
    | invalid =>
      simp [mismatchStep, hop, hra, mstepEvs] at he
      rcases he with rfl | rfl <;> exact ⟨rfl, rfl⟩
    | file =>
      simp [mismatchStep, hop, hra, mstepEvs] at he
      rcases he with rfl | rfl <;> exact ⟨rfl, rfl⟩
    | dir =>
      simp [mismatchStep, hop, hra, mstepEvs] at he
      subst he
      exact ⟨rfl, rfl⟩
  | ok h =>
    cases hm : s2.mapped with
    | none =>
      simp [mismatchStep, hop, hm, mstepEvs] at he
      rcases he with rfl | rfl <;> exact ⟨rfl, rfl⟩
    | some m =>
      by_cases hms : m = s2.src
      · simp [mismatchStep, hop, hm, hms, mstepEvs] at he
        rcases he with rfl | rfl <;> exact ⟨rfl, rfl⟩
      · simp [mismatchStep, hop, hm, hms, mstepEvs] at he
        rcases he with rfl | rfl | rfl <;> exact ⟨rfl, rfl⟩

/-- The mapping/verification loop acquires no source-directory lock. -/
theorem phase2_no_lock (env : Env) :
    ∀ (fuel ek dk : Nat) (done pending : List Slot),
      ∀ e ∈ (phase2 env fuel ek dk done pending).1, isLockEv e = false := by
  intro fuel
  induction fuel with
  | zero =>
    intro ek dk done pending e he
    cases pending <;> simp [phase2] at he
  | succ m ih =>
    intro ek dk done pending e he
    cases pending with
    | nil => simp [phase2] at he
    | cons s rest =>
      by_cases hv : (applyEnum (env.enumerate ek) s).mapped
          = some (applyEnum (env.enumerate ek) s).src
      · rw [phase2_verified_eq env m ek dk done s rest hv] at he
        simp only [List.mem_cons] at he
        rcases he with rfl | rfl | he
        · rfl
        · rfl
        · exact ih (ek + 1) dk _ _ e he
      · cases hms : mismatchStep env dk (applyEnum (env.enumerate ek) s) with
        | retry evs =>
          rw [phase2_retry_eq env m ek dk done s rest evs hv hms] at he
          simp only [List.mem_cons, List.mem_append] at he
          rcases he with rfl | rfl | he | he
          · rfl
          · rfl
          · exact (mstep_events env dk _ e (by rw [hms]; exact he)).1
          · exact ih (ek + 1) (dk + 1) _ _ e he
        | fatalStop evs =>
          rw [phase2_fatal_eq env m ek dk done s rest evs hv hms] at he
          simp only [List.mem_cons] at he
          rcases he with rfl | rfl | he
          · rfl
          · rfl
          · exact (mstep_events env dk _ e (by rw [hms]; exact he)).1

/-- The letters of the MapDrive invocations of the mapping loop form a
non-decreasing sequence bounded below by the first pending slot's letter,
whenever the pending letters are strictly increasing: the loop visits the
slots in ascending letter order, revisiting a slot only until it verifies. -/
theorem phase2_mapLetters (env : Env) :
    ∀ (fuel ek dk : Nat) (done pending : List Slot),
      (pending.map Slot.letter).Pairwise (· < ·) →
      (mapLetters (phase2 env fuel ek dk done pending).1).Chain' (· ≤ ·)
      ∧ (∀ c ∈ mapLetters (phase2 env fuel ek dk done pending).1,
          ∀ s0 ∈ pending.head?, s0.letter ≤ c) := by
  intro fuel
  induction fuel with
  | zero =>
    intro ek dk done pending hpw
    cases pending with
    | nil => simp [phase2, mapLetters]
    | cons s rest => simp [phase2, mapLetters]
  | succ m ih =>
    intro ek dk done pending hpw
    cases pending with
    | nil => simp [phase2, mapLetters]
    | cons s rest =>
      have hpw2 := hpw
      rw [List.map_cons, List.pairwise_cons] at hpw2
      obtain ⟨hlt, hpwrest⟩ := hpw2
      by_cases hv : (applyEnum (env.enumerate ek) s).mapped
          = some (applyEnum (env.enumerate ek) s).src
      · -- verified: advance to the rest
        rw [phase2_verified_eq env m ek dk done s rest hv]
        have hrecpw : ((rest.map (applyEnum (env.enumerate ek))).map Slot.letter).Pairwise
            (· < ·) := by
          rw [map_applyEnum_letters]; exact hpwrest
        have hrec := ih (ek + 1) dk
          (done.map (applyEnum (env.enumerate ek)) ++ [applyEnum (env.enumerate ek) s])
          (rest.map (applyEnum (env.enumerate ek))) hrecpw
        rw [mapLetters_cons_map, mapLetters_cons_enum]
        have hbound : ∀ c ∈ mapLetters (phase2 env m (ek + 1) dk
            (done.map (applyEnum (env.enumerate ek)) ++ [applyEnum (env.enumerate ek) s])
            (rest.map (applyEnum (env.enumerate ek)))).1, s.letter ≤ c := by
          intro c hc
          cases rest with
          | nil =>
            simp [phase2, mapLetters] at hc
          | cons u rest2 =>
            have := hrec.2 c hc (applyEnum (env.enumerate ek) u) (by simp)
            rw [applyEnum_letter] at this
            have hu : s.letter < u.letter := hlt u.letter (by simp)
            exact le_of_lt (lt_of_lt_of_le hu this)
        constructor
        · rw [List.chain'_cons']
          exact ⟨fun y hy => hbound y (List.mem_of_mem_head? hy), hrec.1⟩
        · intro c hc s0 hs0
          simp only [List.head?_cons, Option.mem_def, Option.some.injEq] at hs0
          subst hs0
          rcases List.mem_cons.mp hc with rfl | hc
          · exact le_refl _
          · exact hbound c hc
      · cases hms : mismatchStep env dk (applyEnum (env.enumerate ek) s) with
        | retry evs =>
          rw [phase2_retry_eq env m ek dk done s rest evs hv hms]
          have hevsnil : mapLetters evs = [] :=
            mapLetters_nil_of evs (fun e he =>
              (mstep_events env dk _ e (by rw [hms]; exact he)).2)
          have hrecpw : (((applyEnum (env.enumerate ek) s ::
              rest.map (applyEnum (env.enumerate ek)))).map Slot.letter).Pairwise
              (· < ·) := by
            rw [List.map_cons, applyEnum_letter, map_applyEnum_letters]
            exact hpw
          have hrec := ih (ek + 1) (dk + 1)
            (done.map (applyEnum (env.enumerate ek)))
            (applyEnum (env.enumerate ek) s ::
              rest.map (applyEnum (env.enumerate ek))) hrecpw
          rw [mapLetters_cons_map, mapLetters_cons_enum, mapLetters_append,
            hevsnil, List.nil_append]
          have hbound : ∀ c ∈ mapLetters (phase2 env m (ek + 1) (dk + 1)
              (done.map (applyEnum (env.enumerate ek)))
              (applyEnum (env.enumerate ek) s ::
                rest.map (applyEnum (env.enumerate ek)))).1, s.letter ≤ c := by
            intro c hc
            have := hrec.2 c hc (applyEnum (env.enumerate ek) s) (by simp)
            rw [applyEnum_letter] at this
            exact this
          constructor
          · rw [List.chain'_cons']
            exact ⟨fun y hy => hbound y (List.mem_of_mem_head? hy), hrec.1⟩
          · intro c hc s0 hs0
            simp only [List.head?_cons, Option.mem_def, Option.some.injEq] at hs0
            subst hs0
            rcases List.mem_cons.mp hc with rfl | hc
            · exact le_refl _
            · exact hbound c hc
        | fatalStop evs =>
          rw [phase2_fatal_eq env m ek dk done s rest evs hv hms]
          have hevsnil : mapLetters evs = [] :=
            mapLetters_nil_of evs (fun e he =>
              (mstep_events env dk _ e (by rw [hms]; exact he)).2)
          rw [mapLetters_cons_map, mapLetters_cons_enum, hevsnil]
          constructor
          · exact List.chain'_singleton _
          · intro c hc s0 hs0
            simp only [List.head?_cons, Option.mem_def, Option.some.injEq] at hs0
            subst hs0
            rcases List.mem_cons.mp hc with rfl | hc
            · exact le_refl _
            · simp at hc

/-- No cleanup event is a source-lock acquisition or a MapDrive invocation. -/
theorem cleanup_events :
    ∀ (slots : List Slot) (code : Int), ∀ e ∈ (cleanup slots code).1,
      isLockEv e = false ∧ isMapEv e = false := by
  intro slots
  induction slots with
  | nil => intro code e he; simp [cleanup] at he
  | cons s rest ih =>
    intro code e he
    cases hh : s.handle with
    | none =>
      simp [cleanup, hh] at he
      rcases he with rfl | rfl <;> exact ⟨rfl, rfl⟩
    | some v =>
      simp only [cleanup, hh, List.mem_cons] at he
      rcases he with rfl | rfl | he
      · exact ⟨rfl, rfl⟩
      · exact ⟨rfl, rfl⟩
      · exact ih code e he

/-- The letters of a letter-indexed table's slots are a sublist of the 26
drive letters. -/
theorem tableToSlots_letters_sublist (t : Char → Option (List Char)) :
    ((tableToSlots t).map Slot.letter).Sublist driveLetters := by
  have hgen : ∀ ls : List Char,
      ((ls.filterMap fun c => match t c with
          | some src => some (⟨c, src, none, none⟩ : Slot)
          | none => none).map Slot.letter).Sublist ls := by
    intro ls
    induction ls with
    | nil => simp
    | cons c rest ih =>
      cases ht : t c with
      | none =>
        simp only [List.filterMap_cons, ht]
        exact ih.cons c
      | some src =>
        simp only [List.filterMap_cons, ht, List.map_cons]
        exact ih.cons₂ c
  exact hgen driveLetters

/-- The letters of a letter-indexed table's slots are strictly increasing. -/
theorem tableToSlots_letters_pairwise (t : Char → Option (List Char)) :
    ((tableToSlots t).map Slot.letter).Pairwise (· < ·) := by
  have hdl : driveLetters.Pairwise (· < ·) := by decide
  exact hdl.sublist (tableToSlots_letters_sublist t)

/-- C1. For any letter-indexed table and any environment: the source locks
are acquired in strictly ascending letter order; the whole trace splits into
a first part with no MapDrive event followed by a part with no source-lock
event, so every lock acquisition comes before every mapping; if any mapping
happens at all, then every requested slot's source lock was acquired first;
and the mapping/verification phase visits slots in ascending letter order
(its MapDrive letters are non-decreasing). -/
theorem c1_lock_and_visit_order (env : Env) (fuel : Nat)
    (t : Char → Option (List Char)) :
    (lockLetters (substDrivesAndExecute env fuel (tableToSlots t)).1).Chain' (· < ·)
    ∧ (∃ ta tb, (substDrivesAndExecute env fuel (tableToSlots t)).1 = ta ++ tb
        ∧ (∀ e ∈ ta, isMapEv e = false) ∧ (∀ e ∈ tb, isLockEv e = false))
    ∧ ((∃ e ∈ (substDrivesAndExecute env fuel (tableToSlots t)).1, isMapEv e = true) →
        lockLetters (substDrivesAndExecute env fuel (tableToSlots t)).1 =
          (tableToSlots t).map Slot.letter)
    ∧ (mapLetters (substDrivesAndExecute env fuel (tableToSlots t)).1).Chain' (· ≤ ·) := by
  have hpw := tableToSlots_letters_pairwise t
  obtain ⟨⟨n, hn⟩, hokfacts⟩ := phase1_lockLetters env fuel (tableToSlots t) 0
  rcases h1 : phase1 env fuel 0 (tableToSlots t) with ⟨tr1, out1⟩
  rw [h1] at hn
  have htr1nomap : ∀ e ∈ tr1, isMapEv e = false := by
    intro e he
    rcases phase1_events env fuel (tableToSlots t) 0 e (by rw [h1]; exact he)
      with rfl | ⟨c, rfl⟩ <;> rfl
  have htr1mapnil : mapLetters tr1 = [] := mapLetters_nil_of tr1 htr1nomap
  cases out1 with
  | fatal =>
    have hsub : substDrivesAndExecute env fuel (tableToSlots t) = (tr1, some 1) := by
      simp [substDrivesAndExecute, h1]
    rw [hsub]
    refine ⟨?_, ⟨tr1, [], by simp, htr1nomap, by simp⟩, ?_, ?_⟩
    · rw [show lockLetters (tr1, some 1).1 = lockLetters tr1 from rfl, hn]
      exact ((hpw.sublist (List.take_sublist n _)).chain')
    · rintro ⟨e, he, hm⟩
      rw [htr1nomap e he] at hm
      cases hm
    · rw [show mapLetters (tr1, some 1).1 = mapLetters tr1 from rfl, htr1mapnil]
      exact List.chain'_nil
  | fuelOut =>
    have hsub : substDrivesAndExecute env fuel (tableToSlots t) = (tr1, none) := by
      simp [substDrivesAndExecute, h1]
    rw [hsub]
    refine ⟨?_, ⟨tr1, [], by simp, htr1nomap, by simp⟩, ?_, ?_⟩
    · rw [show lockLetters (tr1, (none : Option Int)).1 = lockLetters tr1 from rfl, hn]
      exact ((hpw.sublist (List.take_sublist n _)).chain')
    · rintro ⟨e, he, hm⟩
      rw [htr1nomap e he] at hm
      cases hm
    · rw [show mapLetters (tr1, (none : Option Int)).1 = mapLetters tr1 from rfl,
        htr1mapnil]
      exact List.chain'_nil
  | ok locked k2 =>
    obtain ⟨hfull, hlet⟩ := hokfacts locked k2 (by rw [h1])
    rw [h1] at hfull
    have hlockedpw : (locked.map Slot.letter).Pairwise (· < ·) := by
      rw [hlet]; exact hpw
    have hmap2 := phase2_mapLetters env fuel 0 0 [] locked hlockedpw
    rcases h2 : phase2 env fuel 0 0 [] locked with ⟨tr2, out2⟩
    rw [h2] at hmap2
    have htr2nolock : ∀ e ∈ tr2, isLockEv e = false := by
      intro e he
      exact phase2_no_lock env fuel 0 0 [] locked e (by rw [h2]; exact he)
    have htr2locknil : lockLetters tr2 = [] := lockLetters_nil_of tr2 htr2nolock
    cases out2 with
    | fatal =>
      have hsub : substDrivesAndExecute env fuel (tableToSlots t) =
          (tr1 ++ tr2, some 1) := by
        simp [substDrivesAndExecute, h1, h2]
      rw [hsub]
      have hlock : lockLetters (tr1 ++ tr2) = (tableToSlots t).map Slot.letter := by
        rw [lockLetters_append, htr2locknil, List.append_nil]
        exact hfull
      refine ⟨?_, ⟨tr1, tr2, rfl, htr1nomap, htr2nolock⟩, fun _ => hlock, ?_⟩
      · rw [show lockLetters (tr1 ++ tr2, some 1).1 = lockLetters (tr1 ++ tr2) from rfl,
          hlock]
        exact hpw.chain'
      · rw [show mapLetters (tr1 ++ tr2, some 1).1 = mapLetters (tr1 ++ tr2) from rfl,
          mapLetters_append, htr1mapnil, List.nil_append]
        exact hmap2.1
    | fuelOut =>
      have hsub : substDrivesAndExecute env fuel (tableToSlots t) =
          (tr1 ++ tr2, none) := by
        simp [substDrivesAndExecute, h1, h2]
      rw [hsub]
      have hlock : lockLetters (tr1 ++ tr2) = (tableToSlots t).map Slot.letter := by
        rw [lockLetters_append, htr2locknil, List.append_nil]
        exact hfull
      refine ⟨?_, ⟨tr1, tr2, rfl, htr1nomap, htr2nolock⟩, fun _ => hlock, ?_⟩
      · rw [show lockLetters (tr1 ++ tr2, (none : Option Int)).1
            = lockLetters (tr1 ++ tr2) from rfl, hlock]
        exact hpw.chain'
      · rw [show mapLetters (tr1 ++ tr2, (none : Option Int)).1
            = mapLetters (tr1 ++ tr2) from rfl,
          mapLetters_append, htr1mapnil, List.nil_append]
        exact hmap2.1
    | ok finalSlots =>
      have hsub : substDrivesAndExecute env fuel (tableToSlots t) =
          (tr1 ++ tr2 ++ Event.execChild env.childExit ::
             (cleanup finalSlots env.childExit).1,
           some (cleanup finalSlots env.childExit).2) := by
        simp [substDrivesAndExecute, h1, h2]
      rw [hsub]
      have hctrnolock : ∀ e ∈ (cleanup finalSlots env.childExit).1,
          isLockEv e = false :=
        fun e he => (cleanup_events finalSlots env.childExit e he).1
      have hctrnomap : ∀ e ∈ (cleanup finalSlots env.childExit).1,
          isMapEv e = false :=
        fun e he => (cleanup_events finalSlots env.childExit e he).2
      have htbl : ∀ e ∈ tr2 ++ Event.execChild env.childExit ::
          (cleanup finalSlots env.childExit).1, isLockEv e = false := by
        intro e he
        rcases List.mem_append.mp he with he | he
        · exact htr2nolock e he
        · rcases List.mem_cons.mp he with rfl | he
          · rfl
          · exact hctrnolock e he
      have hlock : lockLetters (tr1 ++ tr2 ++ Event.execChild env.childExit ::
          (cleanup finalSlots env.childExit).1) =
          (tableToSlots t).map Slot.letter := by
        rw [List.append_assoc, lockLetters_append,
          lockLetters_nil_of _ htbl, List.append_nil]
        exact hfull
      refine ⟨?_, ⟨tr1, tr2 ++ Event.execChild env.childExit ::
          (cleanup finalSlots env.childExit).1,
          by rw [List.append_assoc], htr1nomap, htbl⟩, fun _ => hlock, ?_⟩
      · rw [show lockLetters ((tr1 ++ tr2 ++ Event.execChild env.childExit ::
            (cleanup finalSlots env.childExit).1,
            some (cleanup finalSlots env.childExit).2) : List Event × Option Int).1
            = lockLetters (tr1 ++ tr2 ++ Event.execChild env.childExit ::
              (cleanup finalSlots env.childExit).1) from rfl, hlock]
        exact hpw.chain'
      · have hmctr : mapLetters (Event.execChild env.childExit ::
            (cleanup finalSlots env.childExit).1) = [] := by
          rw [mapLetters_cons_exec]
          exact mapLetters_nil_of _ hctrnomap
        rw [show mapLetters ((tr1 ++ tr2 ++ Event.execChild env.childExit ::
            (cleanup finalSlots env.childExit).1,
            some (cleanup finalSlots env.childExit).2) : List Event × Option Int).1
            = mapLetters (tr1 ++ tr2 ++ Event.execChild env.childExit ::
              (cleanup finalSlots env.childExit).1) from rfl,
          List.append_assoc, mapLetters_append, htr1mapnil, List.nil_append,
          mapLetters_append, hmctr, List.append_nil]
        exact hmap2.1

/-- When no remaining slot can improve on the best length seen, the scan keeps
the accumulated answer. -/
theorem remapScan_none (ncur : List Char) :
    ∀ (l : List ParseSlot) (longest : Nat) (best : Option (List Char)),
      (∀ s ∈ l, headMatches s.src ncur = true → s.src.length ≤ longest) →
      remapScan ncur l longest best = best := by
  intro l
  induction l with
  | nil => intro longest best _; rfl
  | cons a l2 ih =>
    intro longest best h
    have hcond : ¬ (headMatches a.src ncur = true ∧ longest < a.src.length) := by
      rintro ⟨hm, hl⟩
      exact absurd (h a (List.mem_cons_self a l2) hm) (by omega)
    simp only [remapScan]
    rw [if_neg hcond]
    exact ih longest best (fun s hs hm => h s (List.mem_cons_of_mem a hs) hm)

/-- When some remaining slot improves on the best length seen, the scan
returns the rewrite for the first slot attaining the maximal matching length:
the selected slot matches, strictly exceeds the starting length, bounds every
match from above, and strictly exceeds every earlier match that itself
exceeded the starting length. -/
theorem remapScan_found (ncur : List Char) :
    ∀ (l : List ParseSlot) (longest : Nat) (best : Option (List Char))
      (s0 : ParseSlot),
      s0 ∈ l → headMatches s0.src ncur = true → longest < s0.src.length →
      ∃ pre s post, l = pre ++ s :: post
        ∧ headMatches s.src ncur = true ∧ longest < s.src.length
        ∧ remapScan ncur l longest best =
            some (s.letter :: ':' :: '\\' :: ncur.drop s.src.length)
        ∧ (∀ u ∈ l, headMatches u.src ncur = true → u.src.length ≤ s.src.length)
        ∧ (∀ u ∈ pre, headMatches u.src ncur = true →
            u.src.length < s.src.length ∨ u.src.length ≤ longest) := by
  intro l
  induction l with
  | nil => intro longest best s0 h; simp at h
  | cons a l2 ih =>
    intro longest best s0 hs0mem hs0m hs0l
    by_cases ha : headMatches a.src ncur = true ∧ longest < a.src.length
    · simp only [remapScan]
      rw [if_pos ha]
      by_cases h2 : ∃ u, u ∈ l2 ∧ headMatches u.src ncur = true
          ∧ a.src.length < u.src.length
      · obtain ⟨u0, hu0mem, hu0m, hu0l⟩ := h2
        obtain ⟨pre2, s, post2, heq, hsm, hsl, hres, hall, hpre⟩ :=
          ih a.src.length (some (a.letter :: ':' :: '\\' :: ncur.drop a.src.length))
            u0 hu0mem hu0m hu0l
        refine ⟨a :: pre2, s, post2, by rw [heq]; rfl, hsm, by omega, hres, ?_, ?_⟩
        · intro u hu hum
          rcases List.mem_cons.mp hu with rfl | hu
          · omega
          · exact hall u hu hum
        · intro u hu hum
          rcases List.mem_cons.mp hu with rfl | hu
          · left; omega
          · rcases hpre u hu hum with h | h
            · left; exact h
            · left; omega
      · have hstay := remapScan_none ncur l2 a.src.length
            (some (a.letter :: ':' :: '\\' :: ncur.drop a.src.length))
            (fun u hu hum => by
              have hnl : ¬ a.src.length < u.src.length :=
                fun hl => h2 ⟨u, hu, hum, hl⟩
              omega)
        refine ⟨[], a, l2, rfl, ha.1, ha.2, hstay, ?_, by simp⟩
        intro u hu hum
        rcases List.mem_cons.mp hu with rfl | hu
        · exact le_refl _
        · have hnl : ¬ a.src.length < u.src.length := fun hl => h2 ⟨u, hu, hum, hl⟩
          omega
    · simp only [remapScan]
      rw [if_neg ha]
      have hs0mem2 : s0 ∈ l2 := by
        rcases List.mem_cons.mp hs0mem with rfl | h
        · exact absurd ⟨hs0m, hs0l⟩ ha
        · exact h
      obtain ⟨pre2, s, post2, heq, hsm, hsl, hres, hall, hpre⟩ :=
        ih longest best s0 hs0mem2 hs0m hs0l
      refine ⟨a :: pre2, s, post2, by rw [heq]; rfl, hsm, hsl, hres, ?_, ?_⟩
      · intro u hu hum
        rcases List.mem_cons.mp hu with rfl | hu
        · have hnl : ¬ longest < u.src.length := fun hl => ha ⟨hum, hl⟩
          omega
        · exact hall u hu hum
      · intro u hu hum
        rcases List.mem_cons.mp hu with rfl | hu
        · right
          have hnl : ¬ longest < u.src.length := fun hl => ha ⟨hum, hl⟩
          omega
        · exact hpre u hu hum

/-- The max-fold is bounded by any upper bound of the list. -/
theorem foldr_max_le (L : List Nat) (x : Nat) (h : ∀ y ∈ L, y ≤ x) :
    L.foldr Nat.max 0 ≤ x := by
  induction L with
  | nil => simp
  | cons a L2 ih =>
    simp only [List.foldr_cons]
    have ha := h a (List.mem_cons_self a L2)
    have hL := ih (fun y hy => h y (List.mem_cons_of_mem a hy))
    exact max_le ha hL

/-- Every member is bounded by the max-fold. -/
theorem le_foldr_max (L : List Nat) (x : Nat) (h : x ∈ L) :
    x ≤ L.foldr Nat.max 0 := by
  induction L with
  | nil => simp at h
  | cons a L2 ih =>
    simp only [List.foldr_cons]
    rcases List.mem_cons.mp h with rfl | h2
    · exact le_max_left _ _
    · exact le_trans (ih h2) (le_max_right _ _)

/-- find? skips a front segment on which the predicate is false. -/
theorem find?_skips_front {α : Type} (p : α → Bool) (l1 l2 : List α)
    (h : ∀ a ∈ l1, p a = false) :
    (l1 ++ l2).find? p = l2.find? p := by
  induction l1 with
  | nil => rfl
  | cons a l1t ih =>
    have ha := h a (List.mem_cons_self a l1t)
    rw [List.cons_append, List.find?_cons_of_neg _ (by simp [ha])]
    exact ih (fun x hx => h x (List.mem_cons_of_mem a hx))

/-- The scan of ExecuteProcess agrees with the spec-side selection: the first
slot in scan order attaining the longest matching source length. -/
theorem remap_eq_spec (slots : List ParseSlot) (cur : List Char)
    (hlen : ∀ s ∈ slots, 0 < s.src.length) :
    remapCurrentDir slots cur = specRemap slots cur := by
  by_cases hex : ∃ s0, s0 ∈ slots ∧ headMatches s0.src (lowerTrailingSep cur) = true
  · obtain ⟨s0, hs0mem, hs0m⟩ := hex
    obtain ⟨pre, s, post, heq, hsm, hsl, hres, hall, hpre⟩ :=
      remapScan_found (lowerTrailingSep cur) slots 0 none s0 hs0mem hs0m
        (hlen s0 hs0mem)
    have hsmem : s ∈ slots := by
      rw [heq]
      exact List.mem_append_right pre (List.mem_cons_self s post)
    have hscan : remapCurrentDir slots cur =
        s.letter :: ':' :: '\\' :: (lowerTrailingSep cur).drop s.src.length := by
      simp only [remapCurrentDir, hres]
    have hbest : specBestLen slots (lowerTrailingSep cur) = s.src.length := by
      simp only [specBestLen]
      apply le_antisymm
      · apply foldr_max_le
        intro y hy
        simp only [specMatches, List.mem_map, List.mem_filter] at hy
        obtain ⟨u, ⟨humem, hum⟩, rfl⟩ := hy
        exact hall u humem hum
      · apply le_foldr_max
        simp only [specMatches, List.mem_map, List.mem_filter]
        exact ⟨s, ⟨hsmem, hsm⟩, rfl⟩
    have hsplit : specMatches slots (lowerTrailingSep cur) =
        (pre.filter fun u => headMatches u.src (lowerTrailingSep cur)) ++
          s :: (post.filter fun u => headMatches u.src (lowerTrailingSep cur)) := by
      rw [specMatches, heq, List.filter_append, List.filter_cons]
      simp [hsm]
    have hfind : (specMatches slots (lowerTrailingSep cur)).find?
        (fun u => u.src.length == specBestLen slots (lowerTrailingSep cur))
        = some s := by
      rw [hbest, hsplit, find?_skips_front]
      · rw [List.find?_cons_of_pos _ (by simp)]
      · intro u hu
        have humem : u ∈ pre := List.mem_of_mem_filter hu
        have hum : headMatches u.src (lowerTrailingSep cur) = true := by
          simpa using List.of_mem_filter hu
        have hub := hpre u humem hum
        have h0 : 0 < u.src.length := by
          apply hlen u
          rw [heq]
          exact List.mem_append_left _ humem
        simp only [beq_eq_false_iff_ne, ne_eq]
        omega
    simp only [specRemap, hfind, hscan]
  · have hnone : ∀ u ∈ slots, headMatches u.src (lowerTrailingSep cur) = false := by
      intro u hu
      have : ¬ headMatches u.src (lowerTrailingSep cur) = true :=
        fun hm => hex ⟨u, hu, hm⟩
      simpa using this
    have hscan : remapScan (lowerTrailingSep cur) slots 0 none = none :=
      remapScan_none _ slots 0 none
        (fun u hu hum => by rw [hnone u hu] at hum; cases hum)
    have hmat : specMatches slots (lowerTrailingSep cur) = [] := by
      rw [specMatches, List.filter_eq_nil_iff]
      intro u hu
      simp [hnone u hu]
    simp only [remapCurrentDir, specRemap, hscan, hmat, List.find?_nil]

/-- C8. The working-directory remap equals the spec-side rule (strictly
longest matching source wins, the first slot in ascending scan order taking
an equal-length tie, the result rewritten to letter:\suffix); with no
matching slot the normalized current directory is kept; and on the worked
example with c:\work\ on X and c:\work\sub\ on Y, the current directory
c:\work\sub\deep resolves to Y:\deep\ (the directory Y:\deep with the
mandatory trailing separator), not to X:\sub\deep\. -/
theorem c8_workdir_remap :
    (∀ (slots : List ParseSlot) (cur : List Char),
      (∀ s ∈ slots, 0 < s.src.length) →
      remapCurrentDir slots cur = specRemap slots cur)
    ∧ (∀ (slots : List ParseSlot) (cur : List Char),
        (∀ s ∈ slots, headMatches s.src (lowerTrailingSep cur) = false) →
        remapCurrentDir slots cur = lowerTrailingSep cur)
    ∧ remapCurrentDir exampleSlots "c:\\work\\sub\\deep".data = "Y:\\deep\\".data
    ∧ remapCurrentDir exampleSlots "c:\\work\\sub\\deep".data
        ≠ "X:\\sub\\deep\\".data := by
  refine ⟨remap_eq_spec, ?_, by decide, by decide⟩
  intro slots cur hnone
  have hscan : remapScan (lowerTrailingSep cur) slots 0 none = none :=
    remapScan_none _ slots 0 none
      (fun u hu hum => by rw [hnone u hu] at hum; cases hum)
  simp only [remapCurrentDir, hscan]

/-- Instantiation of c8_workdir_remap: the scan agrees with the spec-side
selection on the worked example, and a non-matching slot leaves the
normalized current directory unchanged. -/
theorem c8_witness :
    remapCurrentDir exampleSlots "c:\\work\\sub\\deep".data =
      specRemap exampleSlots "c:\\work\\sub\\deep".data
    ∧ remapCurrentDir [⟨'Z', "d:\\data\\".data⟩] "e:\\other".data =
        lowerTrailingSep "e:\\other".data := by
  constructor
  · exact c8_workdir_remap.1 exampleSlots "c:\\work\\sub\\deep".data (by decide)
  · exact c8_workdir_remap.2.1 [⟨'Z', "d:\\data\\".data⟩] "e:\\other".data (by decide)

end RunInSubst
